import Mathlib

/-!
Verification development for the UAE-FOODIES restaurant-discovery app
(`src/index.tsx`).  The core of the program is embedded shallowly:

* the response-normalization pipeline of `fetchRecommendations`
  (lines 154-165): code-fence removal, trimming, bracket slicing and
  `JSON.parse`;
* the query builder of `fetchRecommendations` (lines 100-141): the derived
  query subject and the GPS/city prompt with its grounding hint;
* the search-orchestration state machine of `App` (lines 468-553):
  `executeSearch`, `handleGPSRequest`, the loading-step interval effect, and
  the React state fields `location/city/cuisine/customQuery/results/loading/
  loadingStep/error`.

Text is modelled as `List Char`; JS `JSON.parse` is modelled by an executable
recursive-descent JSON parser; the untyped parse result is kept as a `Json`
value, exactly as the runtime does (the TypeScript `Restaurant` interface is
a compile-time annotation with no runtime check).
-/

set_option maxRecDepth 4000

namespace UAE

/-! ### Character-list primitives modelling the JS string operations -/

/-- Whitespace recognised by `String.prototype.trim` and by `JSON.parse`
(the inputs in this development only use these four characters). -/
def isWsChar (c : Char) : Bool :=
  c = ' ' || c = '\n' || c = '\t' || c = '\r'

/-- `matchesAt p s` holds when `p` occurs at the beginning of `s`. -/
def matchesAt : List Char → List Char → Bool
  | [], _ => true
  | _ :: _, [] => false
  | p :: ps, c :: cs => p == c && matchesAt ps cs

/-- `containsSub p s`: `p` occurs somewhere inside `s` (contiguously). -/
def containsSub (p : List Char) : List Char → Bool
  | [] => matchesAt p []
  | c :: cs => matchesAt p (c :: cs) || containsSub p cs

/-- Fuel-driven worker for `replaceAll`: left-to-right, non-overlapping
deletion of every occurrence of the pattern, the semantics of
`text.replace(/pat/g, '')`. -/
def replaceAllF : Nat → List Char → List Char → List Char
  | 0, _, l => l
  | _ + 1, _, [] => []
  | fuel + 1, p, c :: cs =>
    if p.length ≠ 0 ∧ matchesAt p (c :: cs) = true then
      replaceAllF fuel p (cs.drop (p.length - 1))
    else
      c :: replaceAllF fuel p cs

/-- `text.replace(/pat/g, '')` (global deletion of a literal pattern). -/
def replaceAll (p l : List Char) : List Char :=
  replaceAllF l.length p l

/-- `String.prototype.trim`. -/
def trimChars (l : List Char) : List Char :=
  ((l.dropWhile isWsChar).reverse.dropWhile isWsChar).reverse

/-- `text.indexOf(c)` (as an `Option` instead of `-1`). -/
def firstIdx (c : Char) : List Char → Option Nat
  | [] => none
  | x :: xs => if x = c then some 0 else (firstIdx c xs).map (· + 1)

/-- `text.lastIndexOf(c)` (as an `Option` instead of `-1`). -/
def lastIdx (c : Char) (l : List Char) : Option Nat :=
  (firstIdx c l.reverse).map (fun i => l.length - 1 - i)

/-- `text.substring(a, b)`: swaps its endpoints when `a > b` and clamps
them to the text, returning the half-open span. -/
def jsSubstring (t : List Char) (a b : Nat) : List Char :=
  (t.take (max a b)).drop (min a b)

/-! ### The response normalizer (`fetchRecommendations`, lines 154-165) -/

/-- The three-backtick fence marker. -/
def tick3 : List Char := ['`', '`', '`']

/-- The `` ```json `` fence marker. -/
def tick3json : List Char := tick3 ++ ['j', 's', 'o', 'n']

/-- Line 157: `text.replace(/```json/g, '').replace(/```/g, '')`. -/
def defenceText (t : List Char) : List Char :=
  replaceAll tick3 (replaceAll tick3json t)

/-- Lines 159-163: slice from the first `[` to the last `]` when both
exist, otherwise leave the text unchanged. -/
def sliceBrackets (t : List Char) : List Char :=
  match firstIdx '[' t, lastIdx ']' t with
  | some i, some j => jsSubstring t i (j + 1)
  | _, _ => t

/-- Lines 157-163: fence removal, `.trim()`, then bracket slicing. -/
def normalizeReplyText (t : List Char) : List Char :=
  sliceBrackets (trimChars (defenceText t))

/-! ### A model of `JSON.parse`

`JSON.parse` is a platform builtin; it is modelled by an executable
recursive-descent parser over the JSON grammar (RFC 8259): values are
`null`, booleans, numbers, strings, arrays and objects.  A number is kept
as a mantissa/decimal-exponent pair (`num m e` denotes `m * 10 ^ e`);
duplicate object keys are kept in order (lookup takes the last, as JS
does).  Recursion is fuel-driven so every function computes. -/

inductive Json where
  | null : Json
  | bool : Bool → Json
  | num : Int → Int → Json
  | str : List Char → Json
  | arr : List Json → Json
  | obj : List (List Char × Json) → Json

/-- JSON whitespace (space, tab, newline, carriage return). -/
def skipWs (s : List Char) : List Char := s.dropWhile isWsChar

/-- Consume an exact literal continuation (e.g. `"ull"` after `n`). -/
def stripLit (lit s : List Char) : Option (List Char) :=
  if matchesAt lit s then some (s.drop lit.length) else none

/-- Value of a hexadecimal digit. -/
def hexVal (c : Char) : Option Nat :=
  if '0' ≤ c ∧ c ≤ '9' then some (c.toNat - 48)
  else if 'a' ≤ c ∧ c ≤ 'f' then some (c.toNat - 87)
  else if 'A' ≤ c ∧ c ≤ 'F' then some (c.toNat - 55)
  else none

/-- The single-character escapes of JSON strings. -/
def escSimple (c : Char) : Option Char :=
  if c = '"' then some '"'
  else if c = '\\' then some '\\'
  else if c = '/' then some '/'
  else if c = 'b' then some (Char.ofNat 8)
  else if c = 'f' then some (Char.ofNat 12)
  else if c = 'n' then some '\n'
  else if c = 'r' then some '\r'
  else if c = 't' then some '\t'
  else none

/-- Split leading decimal digits from the rest. -/
def splitDigits (s : List Char) : List Char × List Char :=
  (s.takeWhile Char.isDigit, s.dropWhile Char.isDigit)

/-- Numeric value of a digit list. -/
def digitsToNat (l : List Char) : Nat :=
  l.foldl (fun a c => 10 * a + (c.toNat - 48)) 0

/-- Parse the body of a JSON string after the opening quote. -/
def parseStringBody : Nat → List Char → Option (List Char × List Char)
  | 0, _ => none
  | _ + 1, [] => none
  | fuel + 1, c :: r =>
    if c = '"' then some ([], r)
    else if c = '\\' then
      match r with
      | [] => none
      | e :: r2 =>
        if e = 'u' then
          match r2 with
          | a :: b :: c2 :: d :: r3 =>
            match hexVal a, hexVal b, hexVal c2, hexVal d with
            | some x, some y, some z, some w =>
              (parseStringBody fuel r3).map
                (fun pr => (Char.ofNat (((x * 16 + y) * 16 + z) * 16 + w) :: pr.1, pr.2))
            | _, _, _, _ => none
          | _ => none
        else
          match escSimple e with
          | some ch => (parseStringBody fuel r2).map (fun pr => (ch :: pr.1, pr.2))
          | none => none
    else if c.toNat < 32 then none
    else (parseStringBody fuel r).map (fun pr => (c :: pr.1, pr.2))

/-- Optional fraction part `.digits` (must be non-empty when the dot is
present); returns the fraction digits and the rest. -/
def parseFrac (s : List Char) : Option (List Char × List Char) :=
  match s with
  | '.' :: r =>
    let q := splitDigits r
    if q.1 = [] then none else some (q.1, q.2)
  | _ => some ([], s)

/-- Optional exponent part `e|E [+|-] digits`; returns the exponent value
and the rest. -/
def parseExp (s : List Char) : Option (Int × List Char) :=
  match s with
  | c :: r =>
    if c = 'e' ∨ c = 'E' then
      let sg : Bool × List Char :=
        match r with
        | '+' :: r2 => (false, r2)
        | '-' :: r2 => (true, r2)
        | _ => (false, r)
      let q := splitDigits sg.2
      if q.1 = [] then none
      else some ((if sg.1 then -(digitsToNat q.1 : Int) else (digitsToNat q.1 : Int)), q.2)
    else some (0, s)
  | [] => some (0, [])

/-- Parse a JSON number (`-? int frac? exp?`, no leading zeros). -/
def parseNumber (s : List Char) : Option (Json × List Char) :=
  let ng : Bool × List Char :=
    match s with
    | '-' :: r => (true, r)
    | _ => (false, s)
  let dp := splitDigits ng.2
  if dp.1 = [] then none
  else if dp.1.length ≥ 2 ∧ dp.1.head? = some '0' then none
  else
    (parseFrac dp.2).bind (fun fp =>
      (parseExp fp.2).map (fun ep =>
        let mant : Nat := digitsToNat (dp.1 ++ fp.1)
        let m : Int := if ng.1 then -(mant : Int) else (mant : Int)
        (Json.num m (ep.1 - (fp.1.length : Int)), ep.2)))

mutual

/-- Parse one JSON value (after skipping leading whitespace). -/
def parseVal : Nat → List Char → Option (Json × List Char)
  | 0, _ => none
  | fuel + 1, s =>
    match skipWs s with
    | [] => none
    | c :: r =>
      if c = '"' then (parseStringBody fuel r).map (fun pr => (Json.str pr.1, pr.2))
      else if c = '[' then
        match skipWs r with
        | ']' :: r2 => some (Json.arr [], r2)
        | _ => (parseItems fuel r).map (fun pr => (Json.arr pr.1, pr.2))
      else if c = '{' then
        match skipWs r with
        | '}' :: r2 => some (Json.obj [], r2)
        | _ => (parseMembers fuel r).map (fun pr => (Json.obj pr.1, pr.2))
      else if c = 't' then (stripLit ['r', 'u', 'e'] r).map (fun r2 => (Json.bool true, r2))
      else if c = 'f' then (stripLit ['a', 'l', 's', 'e'] r).map (fun r2 => (Json.bool false, r2))
      else if c = 'n' then (stripLit ['u', 'l', 'l'] r).map (fun r2 => (Json.null, r2))
      else parseNumber (c :: r)

/-- Parse the comma-separated items of a non-empty array, up to `]`. -/
def parseItems : Nat → List Char → Option (List Json × List Char)
  | 0, _ => none
  | fuel + 1, s =>
    (parseVal fuel s).bind (fun pr =>
      match skipWs pr.2 with
      | ',' :: r2 => (parseItems fuel r2).map (fun q => (pr.1 :: q.1, q.2))
      | ']' :: r2 => some ([pr.1], r2)
      | _ => none)

/-- Parse the comma-separated members of a non-empty object, up to `}`. -/
def parseMembers : Nat → List Char → Option (List (List Char × Json) × List Char)
  | 0, _ => none
  | fuel + 1, s =>
    match skipWs s with
    | '"' :: r =>
      (parseStringBody fuel r).bind (fun kpr =>
        match skipWs kpr.2 with
        | ':' :: r2 =>
          (parseVal fuel r2).bind (fun vpr =>
            match skipWs vpr.2 with
            | ',' :: r3 => (parseMembers fuel r3).map (fun q => ((kpr.1, vpr.1) :: q.1, q.2))
            | '}' :: r3 => some ([(kpr.1, vpr.1)], r3)
            | _ => none)
        | _ => none)
    | _ => none

end

/-- `JSON.parse`: parse one value and require only trailing whitespace. -/
def jsonParse (s : List Char) : Option Json :=
  match parseVal (2 * s.length + 2) s with
  | some pr => if skipWs pr.2 = [] then some pr.1 else none
  | none => none

/-! ### The fetch pipeline (`fetchRecommendations`, lines 143-169)

A failed call throws; the error is classified as `upstream` (the network
call itself failed) or `malformed` (the reply could not be parsed).  The
success value is the raw `JSON.parse` result: line 165 casts it with
`as Restaurant[]` but performs no runtime check. -/

inductive FetchErr where
  | upstream : FetchErr
  | malformed : FetchErr
deriving DecidableEq

/-- Lines 154-165: the handling of `response.text`.  `none` models an
absent `response.text`; the `if (!text) return []` guard also catches the
empty string.  Otherwise the text is normalized and `JSON.parse`d; a parse
failure throws (`MalformedResponseError`). -/
def processReply : Option (List Char) → Except FetchErr Json
  | none => .ok (Json.arr [])
  | some t =>
    if t = [] then .ok (Json.arr [])
    else
      match jsonParse (normalizeReplyText t) with
      | some v => .ok v
      | none => .error .malformed

/-- Whether a `Json` value is an array. -/
def isArrJson : Json → Bool
  | .arr _ => true
  | _ => false

/-! ### The query builder (`fetchRecommendations`, lines 70-141) -/

/-- Line 103. -/
def trendingQuery : List Char := "popular trending restaurants".data

/-- Line 105: the Chinese special case with its satellite districts. -/
def chineseQuery : List Char :=
  "Chinese restaurants, including options in Motor City, Sports City, and Dubai Production City. Also include popular Fusion Chinese (Indo-Chinese) spots.".data

/-- Lines 101-108: the category-derived query term. -/
def queryTerm (cuisine : List Char) : List Char :=
  if cuisine = "Trending".data then trendingQuery
  else if cuisine = "Chinese".data then chineseQuery
  else cuisine ++ " restaurants".data

/-- Line 111: `customQuery.trim() !== "" ? customQuery : queryTerm` —
note that the *untrimmed* `customQuery` is used when it wins. -/
def foodQuery (cuisine customQuery : List Char) : List Char :=
  if trimChars customQuery ≠ [] then customQuery else queryTerm cuisine

/-- `LocationState` (lines 24-28). Coordinates are modelled as integers:
the builder only copies and prints them, never computes with them. -/
structure LocationState where
  lat : Int
  lng : Int
  usingGPS : Bool
deriving DecidableEq

/-- The `City` union type (line 7). -/
inductive City where
  | Dubai : City
  | AbuDhabi : City
  | Sharjah : City
deriving DecidableEq

/-- The literal name of a city as it appears in the prompt. -/
def cityName : City → List Char
  | .Dubai => "Dubai".data
  | .AbuDhabi => "Abu Dhabi".data
  | .Sharjah => "Sharjah".data

/-- Decimal rendering of a coordinate, as `${...}` interpolation does. -/
def intChars (n : Int) : List Char := (toString n).data

/-- Lines 81-98: the JSON-schema instruction appended to every prompt. -/
def jsonInstruction : List Char :=
  "\n  Output strictly a valid JSON array. Do not include any markdown formatting.\n  [\n    \x7b\n      \"name\": \"Name\",\n      \"rating\": 4.5,\n      \"reviewCount\": 120,\n      \"priceLevel\": \"$$\",\n      \"cuisine\": \"Cuisine\",\n      \"address\": \"Full address here\",\n      \"lat\": 25.1234,\n      \"lng\": 55.1234,\n      \"phoneNumber\": \"+971 4 123 4567\",\n      \"aiSummary\": \"10 words max on why it\x27s good.\",\n      \"likelyAggregators\": [\"Talabat\", \"Deliveroo\"]\n    \x7d\n  ]\n  ".data

/-- Line 117 up to the interpolated query. -/
def gpsSeg1 : List Char := "Find 30 distinct places matching \"".data

/-- Line 117 between the query and the coordinates. -/
def gpsSeg2 : List Char := "\" within a 8km radius of my current location ".data

/-- The opening of the coordinate parenthesis. -/
def gpsSegLat : List Char := "(lat: ".data

/-- Between the two coordinates. -/
def gpsSegMid : List Char := ", lng: ".data

/-- Lines 117-124 after the coordinates. -/
def gpsAfterParen : List Char :=
  ". \n    Only include places with a rating of 4.0 or higher.\n    Analyze reviews to infer availability on delivery apps (Talabat, Deliveroo, Noon, Careem, Smash).\n    Find the official phone number for reservations.\n    Get the full address.\n    Get the precise latitude and longitude for the map.\n    Provide a very short, punchy \"Concierge Verdict\" on why I should eat here.\n    ".data

/-- Line 133 between the query and the city name. -/
def citySeg2a : List Char := "\" ".data

/-- The word introducing the city name. -/
def citySeg2b : List Char := "in ".data

/-- After the city name. -/
def cityAfter : List Char := ", UAE".data

/-- Lines 133-140 after `", UAE"`. -/
def cityTail : List Char :=
  ".\n    Only include places with a rating of 4.0 or higher.\n    Analyze reviews to infer availability on delivery apps.\n    Find the official phone number for reservations.\n    Get the full address.\n    Get the precise latitude and longitude for the map.\n    Provide a very short, punchy \"Concierge Verdict\".\n    ".data

/-- The request: prompt text plus the optional `retrievalConfig.latLng`
grounding hint (lines 79, 126-131, 149). -/
structure RequestSpec where
  prompt : List Char
  hint : Option (Int × Int)
deriving DecidableEq

/-- Lines 113-141: the prompt and grounding hint built from the criteria.
When `location.usingGPS`, the prompt embeds the coordinates and the hint
carries them; otherwise the prompt names the city and no hint is set. -/
def buildRequest (location : LocationState) (city : City)
    (cuisine customQuery : List Char) : RequestSpec :=
  let fq := foodQuery cuisine customQuery
  if location.usingGPS then
    { prompt := gpsSeg1 ++ (fq ++ (gpsSeg2 ++
        ((gpsSegLat ++ intChars location.lat ++ gpsSegMid ++ intChars location.lng ++ [')'])
          ++ (gpsAfterParen ++ jsonInstruction)))),
      hint := some (location.lat, location.lng) }
  else
    { prompt := gpsSeg1 ++ (fq ++ (citySeg2a ++
        ((citySeg2b ++ cityName city ++ cityAfter) ++ (cityTail ++ jsonInstruction)))),
      hint := none }

/-! ### The search orchestrator (`App`, lines 468-553)

The React state of `App` relevant to the search lifecycle.  `results`
holds the raw value stored by `setResults(data)` — a `Json` value, since
the code performs no runtime shape check.  State updates inside one event
handler are batched, so each handler is one atomic transition. -/

/-- Error messages the code can store in `error`. -/
def noResultsMsg : List Char :=
  "No restaurants found. Try a different area or cuisine.".data

/-- Line 519 (the `catch` branch of `executeSearch`). -/
def busyMsg : List Char :=
  "AI is busy analyzing tasty food. Please try again.".data

/-- Line 545 (geolocation failure). -/
def permMsg : List Char :=
  "Could not access location. Please check permissions.".data

/-- Line 551 (geolocation capability missing). -/
def unsupportedMsg : List Char :=
  "Geolocation is not supported by this browser.".data

/-- The `useState` fields of `App` driving the search lifecycle
(lines 469-476). -/
structure AppState where
  location : LocationState
  city : City
  cuisine : List Char
  customQuery : List Char
  results : Json
  loading : Bool
  loadingStep : Nat
  error : Option (List Char)

/-- Initial state (lines 469-476). -/
def initialApp : AppState :=
  { location := ⟨0, 0, false⟩, city := .Dubai, cuisine := "Trending".data,
    customQuery := [], results := Json.arr [], loading := false,
    loadingStep := 0, error := none }

/-- The synchronous prefix of `executeSearch` (lines 508-510) together
with the `[loading]` effect (lines 496-505): set `loading`, clear `error`
and `results`; when `loading` flips from `false` to `true` the effect
fires and resets `loadingStep` to 0 (if a search was already loading the
effect does not re-fire and the step is kept). -/
def executeSearchBegin (s : AppState) : AppState :=
  { s with loading := true, error := none, results := Json.arr [],
           loadingStep := if s.loading then s.loadingStep else 0 }

/-- Last-wins lookup of an object field, as `JSON.parse` builds objects. -/
def jLookupLast (k : List Char) (fs : List (List Char × Json)) : Option Json :=
  fs.foldl (fun acc kv => if kv.1 = k then some kv.2 else acc) none

/-- `data.length === 0` (line 515) evaluated on the untyped parse result:
throws a `TypeError` on `null` (modelled as `.error ()`), compares the
`length` of arrays and strings, reads a `length` property on objects
(`undefined === 0` is `false` otherwise). -/
def jsLenEqZero : Json → Except Unit Bool
  | .null => .error ()
  | .arr xs => .ok xs.isEmpty
  | .str cs => .ok cs.isEmpty
  | .num _ _ => .ok false
  | .bool _ => .ok false
  | .obj fs =>
    .ok (match jLookupLast "length".data fs with
         | some (Json.num m _) => decide (m = 0)
         | _ => false)

/-- The completion of one `executeSearch` invocation (lines 512-522):
on success store the data and set the advisory message when it is empty;
on any thrown error store the generic busy message; `finally` always
clears `loading`.  Nothing gates the write on which invocation is the
most recent one. -/
def executeSearchSettle (o : Except FetchErr Json) (s : AppState) : AppState :=
  match o with
  | .error _ => { s with error := some busyMsg, loading := false }
  | .ok v =>
    match jsLenEqZero v with
    | .ok true => { s with results := v, error := some noResultsMsg, loading := false }
    | .ok false => { s with results := v, loading := false }
    | .error _ => { s with results := v, error := some busyMsg, loading := false }

/-- The options object passed to `getCurrentPosition` (line 548). -/
structure GeoOptions where
  enableHighAccuracy : Bool
  timeout : Nat
  maximumAge : Nat
deriving DecidableEq

/-- Line 548: `{ enableHighAccuracy: true, timeout: 10000, maximumAge: 0 }`. -/
def geoOptions : GeoOptions := ⟨true, 10000, 0⟩

/-- The whole session: the React state plus bookkeeping for the in-flight
fetches (`inflight`) and outstanding geolocation requests (`geoPending`),
which the environment resolves asynchronously. -/
structure MachineState where
  app : AppState
  inflight : Nat
  geoPending : Nat

/-- Events driving the orchestrator: the user commands, the asynchronous
completions (with environment-chosen payloads) and the 1.5 s interval
tick of the loading effect. -/
inductive Ev where
  | startSearch : Ev
  | selectCity : City → Ev
  | selectCuisine : List Char → Ev
  | editQuery : List Char → Ev
  | geoRequest : Ev
  | geoSuccess : Int → Int → Ev
  | geoFailure : Ev
  | geoUnsupported : Ev
  | complete : Except FetchErr Json → Ev
  | tick : Ev

/-- One transition.  `none` means the event is not enabled (a completion
with nothing in flight, a geolocation callback with no outstanding
request, or a tick while the interval is cleared).

* `startSearch`: `handleSearch` → `executeSearch` (lines 525-527);
* `selectCity`: line 594 (`setCity` + reset `usingGPS`);
* `selectCuisine`: `handleCuisineSelect` (lines 555-558);
* `editQuery`: line 586;
* `geoRequest`: `handleGPSRequest` with geolocation available
  (lines 530-532) — only `setLoading(true)`, nothing is cleared;
* `geoSuccess`: the position callback (lines 533-542) — store the live
  location and run `executeSearch` with it;
* `geoFailure`: the error callback (lines 543-547) — set the permission
  message, stop loading, and never invoke the fetch;
* `geoUnsupported`: the `else` branch (line 551);
* `complete`: one in-flight fetch resolves and its `.then/.catch/.finally`
  handlers run (lines 512-522);
* `tick`: the interval fires while `loading` (lines 496-505). -/
def stepF (m : MachineState) : Ev → Option MachineState
  | .startSearch =>
    some { m with app := executeSearchBegin m.app, inflight := m.inflight + 1 }
  | .selectCity c =>
    some { m with app := { m.app with
             city := c,
             location := { m.app.location with usingGPS := false } } }
  | .selectCuisine c =>
    some { m with app := { m.app with cuisine := c, customQuery := [] } }
  | .editQuery q =>
    some { m with app := { m.app with customQuery := q } }
  | .geoRequest =>
    some { m with
           app := { m.app with
             loading := true,
             loadingStep := if m.app.loading then m.app.loadingStep else 0 },
           geoPending := m.geoPending + 1 }
  | .geoSuccess lat lng =>
    if m.geoPending = 0 then none
    else some { m with
      app := executeSearchBegin { m.app with location := ⟨lat, lng, true⟩ },
      inflight := m.inflight + 1,
      geoPending := m.geoPending - 1 }
  | .geoFailure =>
    if m.geoPending = 0 then none
    else some { m with
      app := { m.app with error := some permMsg, loading := false },
      geoPending := m.geoPending - 1 }
  | .geoUnsupported =>
    some { m with app := { m.app with error := some unsupportedMsg } }
  | .complete o =>
    if m.inflight = 0 then none
    else some { m with app := executeSearchSettle o m.app, inflight := m.inflight - 1 }
  | .tick =>
    if m.app.loading then
      some { m with app := { m.app with loadingStep := (m.app.loadingStep + 1) % 5 } }
    else none

/-- The machine at application start. -/
def initMachine : MachineState := ⟨initialApp, 0, 0⟩

/-- Run a list of events from a state. -/
def run (m : MachineState) : List Ev → Option MachineState
  | [] => some m
  | e :: es =>
    match stepF m e with
    | some m2 => run m2 es
    | none => none

/-- Run a list of events from the initial state. -/
def runEvents (es : List Ev) : Option MachineState :=
  run initMachine es

/-- A state is reachable when some event trace produces it. -/
def Reachable (m : MachineState) : Prop :=
  ∃ es, runEvents es = some m

/-- The spec's phases, derived from the code's state fields: `loading`
covers both `Locating` and `Loading` (the code does not distinguish
them); an `Error`-phase state is one holding one of the three failure
messages (fetch failure, geolocation failure, geolocation unsupported);
the advisory empty-result message denotes Success-with-empty-results,
per spec §4.3. -/
inductive Phase where
  | Idle : Phase
  | Waiting : Phase
  | Success : Phase
  | SuccessEmpty : Phase
  | Err : Phase
deriving DecidableEq

/-- `results.length > 0`, the condition the UI uses to show the grid. -/
def jsLenGtZero : Json → Bool
  | .arr xs => !xs.isEmpty
  | .str cs => !cs.isEmpty
  | .obj fs =>
    match jLookupLast "length".data fs with
    | some (Json.num m _) => decide (0 < m)
    | _ => false
  | _ => false

/-- Whether the stored message is one of the failure messages. -/
def isFailureMsg (e : Option (List Char)) : Bool :=
  e = some busyMsg || e = some permMsg || e = some unsupportedMsg

/-- Phase derivation (see `Phase`). -/
def phaseOf (s : AppState) : Phase :=
  if s.loading then .Waiting
  else if isFailureMsg s.error then .Err
  else if jsLenGtZero s.results then .Success
  else if s.error = some noResultsMsg then .SuccessEmpty
  else .Idle

/-! ## Theorems -/

/-! ### Helper lemmas about substring occurrence -/

theorem matchesAt_append_self : ∀ (p v : List Char), matchesAt p (p ++ v) = true
  | [], _ => rfl
  | c :: ps, v => by simp [matchesAt, matchesAt_append_self ps v]

theorem matchesAt_extend (p : List Char) (v : List Char) :
    ∀ s, matchesAt p s = true → matchesAt p (s ++ v) = true := by
  induction p with
  | nil => intro s _; rfl
  | cons x ps ih =>
    intro s h
    cases s with
    | nil => cases h
    | cons y ys =>
      simp [matchesAt] at h ⊢
      exact ⟨h.1, ih ys h.2⟩

theorem containsSub_here (p s : List Char) (h : matchesAt p s = true) :
    containsSub p s = true := by
  cases s with
  | nil => exact h
  | cons c cs => simp [containsSub, h]

theorem containsSub_cons (p : List Char) (c : Char) (cs : List Char)
    (h : containsSub p cs = true) : containsSub p (c :: cs) = true := by
  simp [containsSub, h]

theorem containsSub_append_right (p u v : List Char)
    (h : containsSub p v = true) : containsSub p (u ++ v) = true := by
  induction u with
  | nil => exact h
  | cons c cs ih => exact containsSub_cons p c (cs ++ v) ih

theorem containsSub_append_left (p u v : List Char)
    (h : containsSub p u = true) : containsSub p (u ++ v) = true := by
  induction u with
  | nil =>
    cases p with
    | nil => exact containsSub_here _ _ rfl
    | cons x ps => cases h
  | cons c cs ih =>
    simp only [containsSub, Bool.or_eq_true] at h
    rcases h with h | h
    · exact containsSub_here _ _ (matchesAt_extend p v (c :: cs) h)
    · exact containsSub_cons p c (cs ++ v) (ih h)

/-! ### Helper lemmas about `replaceAll`, `trimChars` and `sliceBrackets` -/

theorem replaceAllF_nil (f : Nat) (p : List Char) : replaceAllF f p [] = [] := by
  cases f <;> rfl

theorem replaceAllF_mono (f1 : Nat) :
    ∀ (f2 : Nat) (p l : List Char), l.length ≤ f1 → l.length ≤ f2 →
      replaceAllF f1 p l = replaceAllF f2 p l := by
  induction f1 with
  | zero =>
    intro f2 p l h1 _
    have hl : l = [] := by
      cases l with
      | nil => rfl
      | cons c cs => simp at h1
    subst hl
    rw [replaceAllF_nil, replaceAllF_nil]
  | succ g ih =>
    intro f2 p l h1 h2
    cases l with
    | nil => rw [replaceAllF_nil, replaceAllF_nil]
    | cons c cs =>
      cases f2 with
      | zero => simp at h2
      | succ g2 =>
        show (if p.length ≠ 0 ∧ matchesAt p (c :: cs) = true then
                replaceAllF g p (cs.drop (p.length - 1))
              else c :: replaceAllF g p cs)
            = (if p.length ≠ 0 ∧ matchesAt p (c :: cs) = true then
                replaceAllF g2 p (cs.drop (p.length - 1))
              else c :: replaceAllF g2 p cs)
        simp only [List.length_cons] at h1 h2
        by_cases hc : p.length ≠ 0 ∧ matchesAt p (c :: cs) = true
        · rw [if_pos hc, if_pos hc]
          apply ih
          · rw [List.length_drop]; omega
          · rw [List.length_drop]; omega
        · rw [if_neg hc, if_neg hc, ih g2 p cs (by omega) (by omega)]

theorem replaceAll_cons_skip (p : List Char) (c : Char) (cs : List Char)
    (h : matchesAt p (c :: cs) = false) :
    replaceAll p (c :: cs) = c :: replaceAll p cs := by
  show (if p.length ≠ 0 ∧ matchesAt p (c :: cs) = true then
          replaceAllF cs.length p (cs.drop (p.length - 1))
        else c :: replaceAllF cs.length p cs) = c :: replaceAll p cs
  rw [if_neg (by simp [h])]
  rfl

theorem replaceAll_cons_match (p : List Char) (c : Char) (cs : List Char)
    (hp : p ≠ []) (h : matchesAt p (c :: cs) = true) :
    replaceAll p (c :: cs) = replaceAll p (cs.drop (p.length - 1)) := by
  have hp0 : p.length ≠ 0 := by
    cases p with
    | nil => exact absurd rfl hp
    | cons x xs => simp
  show (if p.length ≠ 0 ∧ matchesAt p (c :: cs) = true then
          replaceAllF cs.length p (cs.drop (p.length - 1))
        else c :: replaceAllF cs.length p cs)
      = replaceAll p (cs.drop (p.length - 1))
  rw [if_pos ⟨hp0, h⟩]
  apply replaceAllF_mono
  · rw [List.length_drop]; omega
  · exact Nat.le_refl _

theorem matchesAt_head_ne (p0 : Char) (ps : List Char) (c : Char) (cs : List Char)
    (h : c ≠ p0) : matchesAt (p0 :: ps) (c :: cs) = false := by
  have hb : (p0 == c) = false := beq_eq_false_iff_ne.mpr (Ne.symm h)
  simp [matchesAt, hb]

theorem replaceAll_append_no_head (p0 : Char) (ps : List Char) (u v : List Char)
    (h : ∀ x ∈ u, x ≠ p0) :
    replaceAll (p0 :: ps) (u ++ v) = u ++ replaceAll (p0 :: ps) v := by
  induction u with
  | nil => rfl
  | cons c cs ih =>
    have hc : c ≠ p0 := h c (List.mem_cons_self c cs)
    have hm := matchesAt_head_ne p0 ps c (cs ++ v) hc
    calc replaceAll (p0 :: ps) ((c :: cs) ++ v)
        = c :: replaceAll (p0 :: ps) (cs ++ v) :=
          replaceAll_cons_skip (p0 :: ps) c (cs ++ v) hm
      _ = c :: (cs ++ replaceAll (p0 :: ps) v) := by
          rw [ih (fun x hx => h x (List.mem_cons_of_mem c hx))]
      _ = (c :: cs) ++ replaceAll (p0 :: ps) v := rfl

theorem replaceAll_of_no_head (p0 : Char) (ps : List Char) (l : List Char)
    (h : ∀ x ∈ l, x ≠ p0) : replaceAll (p0 :: ps) l = l := by
  have h2 := replaceAll_append_no_head p0 ps l [] h
  simp only [List.append_nil] at h2
  rw [h2, show replaceAll (p0 :: ps) [] = ([] : List Char) from rfl, List.append_nil]

theorem replaceAll_head_match (p0 : Char) (ps v : List Char) :
    replaceAll (p0 :: ps) ((p0 :: ps) ++ v) = replaceAll (p0 :: ps) v := by
  have h := replaceAll_cons_match (p0 :: ps) p0 (ps ++ v) (by simp)
    (matchesAt_append_self (p0 :: ps) v)
  rw [show ((p0 :: ps) : List Char).length - 1 = ps.length by simp] at h
  rw [List.drop_left] at h
  exact h

theorem mem_of_mem_dropWhile (p : Char → Bool) (l : List Char) (x : Char)
    (h : x ∈ l.dropWhile p) : x ∈ l := by
  induction l with
  | nil => simp at h
  | cons c cs ih =>
    rw [List.dropWhile_cons] at h
    by_cases hc : p c
    · rw [if_pos hc] at h
      exact List.mem_cons_of_mem c (ih h)
    · rw [if_neg hc] at h
      exact h

theorem dropWhile_through (u : List Char) (c0 : Char) (w : List Char)
    (hc : isWsChar c0 = false) :
    (u ++ (c0 :: w)).dropWhile isWsChar = u.dropWhile isWsChar ++ (c0 :: w) := by
  induction u with
  | nil => simp [List.dropWhile_cons, hc]
  | cons x xs ih =>
    cases hx : isWsChar x with
    | true => simp [List.dropWhile_cons, hx, ih]
    | false => simp [List.dropWhile_cons, hx]

theorem trim_around (pre mid post : List Char) :
    trimChars ((pre ++ (('[' :: mid) ++ [']'])) ++ post)
      = ((pre.dropWhile isWsChar) ++ (('[' :: mid) ++ [']']))
        ++ (post.reverse.dropWhile isWsChar).reverse := by
  unfold trimChars
  have e1 : ((pre ++ (('[' :: mid) ++ [']'])) ++ post)
      = pre ++ ('[' :: (mid ++ ([']'] ++ post))) := by simp
  rw [e1, dropWhile_through pre '[' _ (by decide)]
  have e2 : (pre.dropWhile isWsChar ++ ('[' :: (mid ++ ([']'] ++ post)))).reverse
      = post.reverse ++ (']' :: (mid.reverse ++ ('[' :: (pre.dropWhile isWsChar).reverse))) := by
    simp [List.reverse_append]
  rw [e2, dropWhile_through post.reverse ']' _ (by decide)]
  simp [List.reverse_append]

theorem firstIdx_append (c : Char) (u rest : List Char) (h : c ∉ u) :
    firstIdx c (u ++ (c :: rest)) = some u.length := by
  induction u with
  | nil => simp [firstIdx]
  | cons x xs ih =>
    have hx : ¬(x = c) := fun e => h (by simp [e])
    have ih2 := ih (fun hm => h (List.mem_cons_of_mem x hm))
    simp [firstIdx, hx, ih2]

theorem lastIdx_append (u v : List Char) (hv : ']' ∉ v) :
    lastIdx ']' ((u ++ [']']) ++ v) = some u.length := by
  unfold lastIdx
  have hrev : (((u ++ [']']) ++ v)).reverse = v.reverse ++ (']' :: u.reverse) := by
    simp [List.reverse_append]
  rw [hrev, firstIdx_append ']' v.reverse u.reverse (by simpa using hv)]
  simp [List.length_append, List.length_reverse]

theorem sliceBrackets_extract (u mid v : List Char)
    (hu : '[' ∉ u) (hv : ']' ∉ v) :
    sliceBrackets ((u ++ (('[' :: mid) ++ [']'])) ++ v) = ('[' :: mid) ++ [']'] := by
  have hf : firstIdx '[' ((u ++ (('[' :: mid) ++ [']'])) ++ v) = some u.length := by
    have h := firstIdx_append '[' u ((mid ++ [']']) ++ v) hu
    have e : (u ++ ('[' :: ((mid ++ [']']) ++ v))) = ((u ++ (('[' :: mid) ++ [']'])) ++ v) := by
      simp
    rw [e] at h
    exact h
  have hl : lastIdx ']' ((u ++ (('[' :: mid) ++ [']'])) ++ v)
      = some ((u ++ ('[' :: mid)).length) := by
    have h := lastIdx_append (u ++ ('[' :: mid)) v hv
    have e : (((u ++ ('[' :: mid)) ++ [']']) ++ v) = ((u ++ (('[' :: mid) ++ [']'])) ++ v) := by
      simp
    rw [e] at h
    exact h
  unfold sliceBrackets
  rw [hf, hl]
  show jsSubstring ((u ++ (('[' :: mid) ++ [']'])) ++ v) u.length
      ((u ++ ('[' :: mid)).length + 1) = ('[' :: mid) ++ [']']
  unfold jsSubstring
  have hmin : min u.length ((u ++ ('[' :: mid)).length + 1) = u.length := by
    simp [List.length_append]
    omega
  have hmax : max u.length ((u ++ ('[' :: mid)).length + 1)
      = (u ++ ('[' :: mid)).length + 1 := by
    simp [List.length_append]
    omega
  rw [hmin, hmax]
  have e4 : ((u ++ (('[' :: mid) ++ [']'])) ++ v) = u ++ ((('[' :: mid) ++ [']']) ++ v) := by
    simp
  have e5 : (u ++ ('[' :: mid)).length + 1 = u.length + (('[' :: mid) ++ [']']).length := by
    simp [List.length_append]
    omega
  rw [e4, e5, List.take_append, List.take_left, List.drop_left]

/-- The shape of a fenced reply: `` ```json\n<A>\n``` ``. -/
def fencedWrap (A : List Char) : List Char :=
  tick3json ++ ('\n' :: (A ++ ('\n' :: tick3)))

theorem bracketed_no_tick (mid : List Char) (hmid : '`' ∉ mid) :
    ∀ x ∈ (('[' :: mid) ++ [']']), x ≠ '`' := by
  intro x hx
  rcases List.mem_append.mp hx with hx | hx
  · rcases List.mem_cons.mp hx with hx | hx
    · subst hx; decide
    · exact fun e => hmid (e ▸ hx)
  · have hx2 := List.mem_singleton.mp hx
    subst hx2; decide

theorem normalizeReplyText_extract (pre mid post : List Char)
    (hpreT : '`' ∉ pre) (hpreB : '[' ∉ pre) (hmidT : '`' ∉ mid)
    (hpostT : '`' ∉ post) (hpostB : ']' ∉ post) :
    normalizeReplyText ((pre ++ (('[' :: mid) ++ [']'])) ++ post)
      = ('[' :: mid) ++ [']'] := by
  have hall : ∀ x ∈ ((pre ++ (('[' :: mid) ++ [']'])) ++ post), x ≠ '`' := by
    intro x hx
    rcases List.mem_append.mp hx with hx | hx
    · rcases List.mem_append.mp hx with hx | hx
      · exact fun e => hpreT (e ▸ hx)
      · exact bracketed_no_tick mid hmidT x hx
    · exact fun e => hpostT (e ▸ hx)
  have hd : defenceText ((pre ++ (('[' :: mid) ++ [']'])) ++ post)
      = ((pre ++ (('[' :: mid) ++ [']'])) ++ post) := by
    unfold defenceText
    have r1 : replaceAll tick3json ((pre ++ (('[' :: mid) ++ [']'])) ++ post)
        = ((pre ++ (('[' :: mid) ++ [']'])) ++ post) :=
      replaceAll_of_no_head '`' _ _ hall
    have r2 : replaceAll tick3 ((pre ++ (('[' :: mid) ++ [']'])) ++ post)
        = ((pre ++ (('[' :: mid) ++ [']'])) ++ post) :=
      replaceAll_of_no_head '`' _ _ hall
    rw [r1, r2]
  unfold normalizeReplyText
  rw [hd, trim_around]
  have hu2 : '[' ∉ pre.dropWhile isWsChar :=
    fun hm => hpreB (mem_of_mem_dropWhile isWsChar pre '[' hm)
  have hv2 : ']' ∉ (post.reverse.dropWhile isWsChar).reverse := by
    intro hm
    rw [List.mem_reverse] at hm
    exact hpostB (List.mem_reverse.mp (mem_of_mem_dropWhile isWsChar post.reverse ']' hm))
  exact sliceBrackets_extract _ mid _ hu2 hv2

theorem normalizeReplyText_fenced (mid : List Char) (hmid : '`' ∉ mid) :
    normalizeReplyText (fencedWrap (('[' :: mid) ++ [']'])) = ('[' :: mid) ++ [']'] := by
  have hnb : ∀ x ∈ ('\n' :: ((('[' :: mid) ++ [']']) ++ ['\n'])), x ≠ '`' := by
    intro x hx
    rcases List.mem_cons.mp hx with hx | hx
    · subst hx; decide
    · rcases List.mem_append.mp hx with hx | hx
      · exact bracketed_no_tick mid hmid x hx
      · have hx2 := List.mem_singleton.mp hx
        subst hx2; decide
  have h1 : replaceAll tick3json (fencedWrap (('[' :: mid) ++ [']']))
      = ('\n' :: ((('[' :: mid) ++ [']']) ++ ['\n'])) ++ tick3 := by
    unfold fencedWrap
    have rh : replaceAll tick3json
          (tick3json ++ ('\n' :: ((('[' :: mid) ++ [']']) ++ ('\n' :: tick3))))
        = replaceAll tick3json ('\n' :: ((('[' :: mid) ++ [']']) ++ ('\n' :: tick3))) :=
      replaceAll_head_match '`' _ _
    rw [rh]
    have hsplit : ('\n' :: ((('[' :: mid) ++ [']']) ++ ('\n' :: tick3)))
        = ('\n' :: ((('[' :: mid) ++ [']']) ++ ['\n'])) ++ tick3 := by simp
    rw [hsplit]
    have ra : replaceAll tick3json
          (('\n' :: ((('[' :: mid) ++ [']']) ++ ['\n'])) ++ tick3)
        = ('\n' :: ((('[' :: mid) ++ [']']) ++ ['\n'])) ++ replaceAll tick3json tick3 :=
      replaceAll_append_no_head '`' _ _ tick3 hnb
    rw [ra, show replaceAll tick3json tick3 = tick3 from rfl]
  have h2 : defenceText (fencedWrap (('[' :: mid) ++ [']']))
      = '\n' :: ((('[' :: mid) ++ [']']) ++ ['\n']) := by
    unfold defenceText
    rw [h1]
    have ra : replaceAll tick3
          (('\n' :: ((('[' :: mid) ++ [']']) ++ ['\n'])) ++ tick3)
        = ('\n' :: ((('[' :: mid) ++ [']']) ++ ['\n'])) ++ replaceAll tick3 tick3 :=
      replaceAll_append_no_head '`' _ _ tick3 hnb
    rw [ra, show replaceAll tick3 tick3 = ([] : List Char) from rfl, List.append_nil]
  have h3 : trimChars ('\n' :: ((('[' :: mid) ++ [']']) ++ ['\n'])) = ('[' :: mid) ++ [']'] := by
    have h := trim_around ['\n'] mid ['\n']
    rw [show (['\n'] : List Char).dropWhile isWsChar = [] from rfl,
        show (((['\n'] : List Char).reverse).dropWhile isWsChar).reverse = [] from rfl] at h
    simpa using h
  have h4 := sliceBrackets_extract [] mid [] (by simp) (by simp)
  unfold normalizeReplyText
  rw [h2, h3]
  simpa using h4

/-- Claim C3 (confirmed): a JSON array wrapped in `` ```json `` fences
normalizes back to the inner array text, hence parses to the same value
as parsing the inner array directly; and an array surrounded by prose
(backtick-free, with the brackets delimiting the array) is extracted with
the prose discarded, so the whole reply and the bare array give the same
fetch result. -/
theorem c3_normalizer_roundtrip (mid mid2 pre post : List Char)
    (h1 : '`' ∉ mid)
    (h2 : '`' ∉ mid2) (h3 : '`' ∉ pre) (h4 : '[' ∉ pre)
    (h5 : '`' ∉ post) (h6 : ']' ∉ post) :
    (normalizeReplyText (fencedWrap (('[' :: mid) ++ [']'])) = ('[' :: mid) ++ [']']
     ∧ jsonParse (normalizeReplyText (fencedWrap (('[' :: mid) ++ [']'])))
       = jsonParse (('[' :: mid) ++ [']']))
    ∧ (normalizeReplyText ((pre ++ (('[' :: mid2) ++ [']'])) ++ post)
        = ('[' :: mid2) ++ [']']
       ∧ processReply (some ((pre ++ (('[' :: mid2) ++ [']'])) ++ post))
         = processReply (some (('[' :: mid2) ++ [']']))) := by
  have hf := normalizeReplyText_fenced mid h1
  have he := normalizeReplyText_extract pre mid2 post h3 h4 h2 h5 h6
  have hid : normalizeReplyText (('[' :: mid2) ++ [']']) = ('[' :: mid2) ++ [']'] := by
    have h := normalizeReplyText_extract [] mid2 [] (by simp) (by simp) h2 (by simp) (by simp)
    simpa using h
  refine ⟨⟨hf, by rw [hf]⟩, he, ?_⟩
  have hne1 : ((pre ++ (('[' :: mid2) ++ [']'])) ++ post) ≠ [] := by simp
  have hne2 : (('[' :: mid2) ++ [']']) ≠ [] := by simp
  simp only [processReply]
  rw [if_neg hne1, if_neg hne2, he, hid]

/-- Witness for C3 at the spec's two examples: a fenced array of one
restaurant object and a bracketed array surrounded by prose. -/
theorem c3_witness :
    normalizeReplyText (fencedWrap
        (('[' :: "\x7b\"name\":\"Karak House\",\"rating\":4.5\x7d".data) ++ [']']))
      = ('[' :: "\x7b\"name\":\"Karak House\",\"rating\":4.5\x7d".data) ++ [']']
    ∧ jsonParse (normalizeReplyText (fencedWrap
        (('[' :: "\x7b\"name\":\"Karak House\",\"rating\":4.5\x7d".data) ++ [']'])))
      = jsonParse (('[' :: "\x7b\"name\":\"Karak House\",\"rating\":4.5\x7d".data) ++ [']'])
    ∧ normalizeReplyText (("Sure! Here you go: ".data
        ++ (('[' :: "1".data) ++ [']'])) ++ " Hope that helps!".data)
      = ('[' :: "1".data) ++ [']'] := by
  have h := c3_normalizer_roundtrip
    "\x7b\"name\":\"Karak House\",\"rating\":4.5\x7d".data "1".data
    "Sure! Here you go: ".data " Hope that helps!".data
    (by decide) (by decide) (by decide) (by decide) (by decide) (by decide)
  exact ⟨h.1.1, h.1.2, h.2.1⟩

/-- Claim C2 counterexample: with `freeText = " pizza "` (non-empty after
trimming) the derived subject is the untrimmed `" pizza "`, which differs
from the trimmed free text `"pizza"` — so the subject does not equal the
trimmed `freeText` as the claim states. -/
theorem c2_counterexample :
    trimChars " pizza ".data ≠ []
    ∧ foodQuery "Trending".data " pizza ".data ≠ trimChars " pizza ".data := by
  exact ⟨by decide, by decide⟩

/-- Claim C2 (amended): when `freeText` is non-empty after trimming, the
derived subject is `freeText` exactly as typed (untrimmed), regardless of
category; otherwise the trending template, the Chinese satellite-district
broadening, or `"<category> restaurants"` apply in that priority order. -/
theorem c2_amended_subject_priority (cu q : List Char) :
    (trimChars q ≠ [] → foodQuery cu q = q)
    ∧ (trimChars q = [] →
        (cu = "Trending".data → foodQuery cu q = trendingQuery)
        ∧ (cu = "Chinese".data → foodQuery cu q = chineseQuery
            ∧ containsSub "Motor City, Sports City, and Dubai Production City".data
                (foodQuery cu q) = true)
        ∧ (cu ≠ "Trending".data → cu ≠ "Chinese".data →
            foodQuery cu q = cu ++ " restaurants".data)) := by
  constructor
  · intro h
    show (if trimChars q ≠ [] then q else queryTerm cu) = q
    rw [if_pos h]
  · intro h
    have hq : foodQuery cu q = queryTerm cu := by
      show (if trimChars q ≠ [] then q else queryTerm cu) = queryTerm cu
      rw [if_neg (by simp [h])]
    refine ⟨?_, ?_, ?_⟩
    · intro hc
      rw [hq]
      show (if cu = "Trending".data then trendingQuery else _) = trendingQuery
      rw [if_pos hc]
    · intro hc
      subst hc
      have h2 : foodQuery "Chinese".data q = chineseQuery := by
        rw [hq]; rfl
      exact ⟨h2, by rw [h2]; decide⟩
    · intro h1 h2
      rw [hq]
      show (if cu = "Trending".data then trendingQuery
            else if cu = "Chinese".data then chineseQuery
            else cu ++ " restaurants".data) = cu ++ " restaurants".data
      rw [if_neg h1, if_neg h2]

/-- Witness for the amended C2, exercising all four branches. -/
theorem c2_amended_witness :
    foodQuery "Trending".data " pizza ".data = " pizza ".data
    ∧ foodQuery "Trending".data "  ".data = trendingQuery
    ∧ foodQuery "Chinese".data "".data = chineseQuery
    ∧ foodQuery "Sushi".data "".data = "Sushi".data ++ " restaurants".data := by
  refine ⟨(c2_amended_subject_priority "Trending".data " pizza ".data).1 (by decide),
          ((c2_amended_subject_priority "Trending".data "  ".data).2 (by decide)).1 rfl,
          (((c2_amended_subject_priority "Chinese".data "".data).2 (by decide)).2.1 rfl).1,
          ((c2_amended_subject_priority "Sushi".data "".data).2 (by decide)).2.2
            (by decide) (by decide)⟩

/-- Claim C4 (confirmed): with `isLive = true` the request's prompt is
independent of the selected city (no city name stands in for the
coordinates), asks for the fixed 8 km radius, embeds exactly
`location.lat`/`location.lng` in the coordinate parenthesis, and the
geospatial grounding hint carries exactly those coordinates; with
`isLive = false` the prompt names the selected city and no hint is
attached. -/
theorem c4_grounding_mode (lat lng : Int) (ct ct2 : City) (cu q : List Char) :
    (buildRequest ⟨lat, lng, true⟩ ct cu q).hint = some (lat, lng)
    ∧ (buildRequest ⟨lat, lng, true⟩ ct cu q).prompt
      = (buildRequest ⟨lat, lng, true⟩ ct2 cu q).prompt
    ∧ containsSub "within a 8km radius".data
        (buildRequest ⟨lat, lng, true⟩ ct cu q).prompt = true
    ∧ containsSub (gpsSegLat ++ intChars lat ++ gpsSegMid ++ intChars lng ++ [')'])
        (buildRequest ⟨lat, lng, true⟩ ct cu q).prompt = true
    ∧ (buildRequest ⟨lat, lng, false⟩ ct cu q).hint = none
    ∧ containsSub (citySeg2b ++ cityName ct ++ cityAfter)
        (buildRequest ⟨lat, lng, false⟩ ct cu q).prompt = true := by
  refine ⟨rfl, rfl, ?_, ?_, rfl, ?_⟩
  · show containsSub "within a 8km radius".data
      (gpsSeg1 ++ (foodQuery cu q ++ (gpsSeg2 ++
        ((gpsSegLat ++ intChars lat ++ gpsSegMid ++ intChars lng ++ [')'])
          ++ (gpsAfterParen ++ jsonInstruction))))) = true
    apply containsSub_append_right
    apply containsSub_append_right
    apply containsSub_append_left
    decide
  · show containsSub (gpsSegLat ++ intChars lat ++ gpsSegMid ++ intChars lng ++ [')'])
      (gpsSeg1 ++ (foodQuery cu q ++ (gpsSeg2 ++
        ((gpsSegLat ++ intChars lat ++ gpsSegMid ++ intChars lng ++ [')'])
          ++ (gpsAfterParen ++ jsonInstruction))))) = true
    apply containsSub_append_right
    apply containsSub_append_right
    apply containsSub_append_right
    exact containsSub_here _ _ (matchesAt_append_self _ _)
  · show containsSub (citySeg2b ++ cityName ct ++ cityAfter)
      (gpsSeg1 ++ (foodQuery cu q ++ (citySeg2a ++
        ((citySeg2b ++ cityName ct ++ cityAfter) ++ (cityTail ++ jsonInstruction))))) = true
    apply containsSub_append_right
    apply containsSub_append_right
    apply containsSub_append_right
    exact containsSub_here _ _ (matchesAt_append_self _ _)

/-- Claim C5 (confirmed): an empty or absent raw reply makes the fetch
return an empty sequence rather than an error; the reply `"[]"` succeeds
with an empty sequence, and the orchestrator then ends in the
Success-with-empty-results state carrying the non-fatal advisory
"no results" message — not in the Error phase (the advisory is not one of
the failure messages). -/
theorem c5_empty_reply_success :
    processReply none = Except.ok (Json.arr [])
    ∧ processReply (some "".data) = Except.ok (Json.arr [])
    ∧ processReply (some "[]".data) = Except.ok (Json.arr [])
    ∧ ∀ a : AppState,
        (executeSearchSettle (processReply (some "[]".data)) (executeSearchBegin a)).error
          = some noResultsMsg
        ∧ (executeSearchSettle (processReply (some "[]".data)) (executeSearchBegin a)).loading
          = false
        ∧ phaseOf (executeSearchSettle (processReply (some "[]".data)) (executeSearchBegin a))
          = Phase.SuccessEmpty := by
  exact ⟨rfl, rfl, rfl, fun a => ⟨rfl, rfl, rfl⟩⟩

/-- Claim C6 (confirmed): a non-empty raw reply with no `[` and no `]`
whose normalized text does not parse as JSON makes the fetch fail with
`MalformedResponseError`; the orchestrator then stores only the fixed
generic try-again message (`busyMsg`, independent of the reply — the raw
parse error is never surfaced). -/
theorem c6_unparseable_is_malformed (t : List Char) (a : AppState)
    (ht : t ≠ []) (hlb : '[' ∉ t) (hrb : ']' ∉ t)
    (hp : jsonParse (normalizeReplyText t) = none) :
    processReply (some t) = Except.error FetchErr.malformed
    ∧ (executeSearchSettle (processReply (some t)) (executeSearchBegin a)).error
      = some busyMsg
    ∧ (executeSearchSettle (processReply (some t)) (executeSearchBegin a)).results
      = Json.arr [] := by
  have h1 : processReply (some t) = Except.error FetchErr.malformed := by
    simp only [processReply]
    rw [if_neg ht, hp]
  rw [h1]
  exact ⟨rfl, rfl, rfl⟩

/-- Witness for C6 at the spec's example `"not json at all"`. -/
theorem c6_witness :
    processReply (some "not json at all".data) = Except.error FetchErr.malformed
    ∧ (executeSearchSettle (processReply (some "not json at all".data))
        (executeSearchBegin initialApp)).error = some busyMsg := by
  have h := c6_unparseable_is_malformed "not json at all".data initialApp
    (by decide) (by decide) (by decide) rfl
  exact ⟨h.1, h.2.1⟩

/-- Claim C9 (confirmed): the normalizer validates only JSON
parseability, never array shape — a non-empty bracket-free reply whose
normalized text parses to any JSON value, even one that is not an array,
is returned as the fetch result instead of raising
`MalformedResponseError`. -/
theorem c9_no_shape_validation (t : List Char) (v : Json)
    (ht : t ≠ []) (hlb : '[' ∉ t) (hrb : ']' ∉ t)
    (hv : isArrJson v = false)
    (hp : jsonParse (normalizeReplyText t) = some v) :
    processReply (some t) = Except.ok v
    ∧ processReply (some t) ≠ Except.error FetchErr.malformed := by
  have h1 : processReply (some t) = Except.ok v := by
    simp only [processReply]
    rw [if_neg ht, hp]
  refine ⟨h1, ?_⟩
  rw [h1]
  exact fun h => Except.noConfusion h

/-- Witness for C9 at the reply `"42"`, which parses to the number 42. -/
theorem c9_witness :
    processReply (some "42".data) = Except.ok (Json.num 42 0)
    ∧ processReply (some "42".data) ≠ Except.error FetchErr.malformed := by
  exact c9_no_shape_validation "42".data (Json.num 42 0)
    (by decide) (by decide) (by decide) rfl rfl

/-- Claim C10 (confirmed): every single `executeSearch` invocation ends
with `loading = false` (the `finally` clause) whatever the outcome, and
on a fetch failure the results cleared at the start are still the empty
sequence while the generic error message is set — a failed search neither
sticks in the loading phase nor shows partial results. -/
theorem c10_search_always_terminates (a : AppState) (o : Except FetchErr Json) :
    (executeSearchSettle o (executeSearchBegin a)).loading = false
    ∧ (∀ e : FetchErr, o = Except.error e →
        (executeSearchSettle o (executeSearchBegin a)).results = Json.arr []
        ∧ (executeSearchSettle o (executeSearchBegin a)).error = some busyMsg) := by
  constructor
  · cases o with
    | error e => rfl
    | ok v =>
      cases h : jsLenEqZero v with
      | error u => simp [executeSearchSettle, h]
      | ok b => cases b <;> simp [executeSearchSettle, h]
  · intro e he
    subst he
    exact ⟨rfl, rfl⟩

/-- Witness for C10 at an upstream failure from the initial state. -/
theorem c10_witness :
    (executeSearchSettle (Except.error FetchErr.upstream)
      (executeSearchBegin initialApp)).loading = false
    ∧ (executeSearchSettle (Except.error FetchErr.upstream)
        (executeSearchBegin initialApp)).results = Json.arr []
    ∧ (executeSearchSettle (Except.error FetchErr.upstream)
        (executeSearchBegin initialApp)).error = some busyMsg := by
  have h := c10_search_always_terminates initialApp (Except.error FetchErr.upstream)
  exact ⟨h.1, (h.2 FetchErr.upstream rfl).1, (h.2 FetchErr.upstream rfl).2⟩

/-! ### Concrete payloads and traces for the state-machine claims -/

/-- A one-element result array tagged as the GPS search's reply. -/
def gpsArr : Json := Json.arr [Json.obj [("name".data, Json.str "GPS Spot".data)]]

/-- A one-element result array tagged as the earlier city search's reply. -/
def cityArr : Json := Json.arr [Json.obj [("name".data, Json.str "City Spot".data)]]

/-- A one-element result array for the C7 trace. -/
def c7Arr : Json := Json.arr [Json.obj [("name".data, Json.str "Karak Corner".data)]]

/-- A one-element result array for the C8 trace. -/
def c8Arr : Json := Json.arr [Json.obj [("name".data, Json.str "Mandi House".data)]]

/-- The name inside the first object of a result array (used to tell two
concrete `Json` payloads apart). -/
def headNameStr : Json → List Char
  | .arr (Json.obj ((_, Json.str s) :: _) :: _) => s
  | _ => []

/-- City search starts; GPS search starts while it is loading; the GPS
fetch completes first, then the stale city reply arrives. -/
def c1Trace : List Ev :=
  [Ev.startSearch, Ev.geoRequest, Ev.geoSuccess 25 55,
   Ev.complete (Except.ok gpsArr), Ev.complete (Except.ok cityArr)]

/-- Claim C1 counterexample: in the overlapping-search trace `c1Trace`,
after the GPS search completes its results are `gpsArr`; when the prior
city search's response then arrives it overwrites them with `cityArr`.
No sequence number exists, so the stale completion is applied — the
behaviour the claim says must not happen. -/
theorem c1_counterexample :
    ((runEvents (c1Trace.take 4)).map (fun m => m.app.results) = some gpsArr)
    ∧ ((runEvents (c1Trace.take 4)).map (fun m => m.app.loading) = some false)
    ∧ ((runEvents c1Trace).map (fun m => m.app.results) = some cityArr)
    ∧ gpsArr ≠ cityArr := by
  exact ⟨rfl, rfl, rfl, fun h => absurd (congrArg headNameStr h) (by decide)⟩

/-- Claim C1 (amended): invocations carry no sequence number at all; any
arriving fetch completion is applied to the current state unconditionally
— it stores its own payload as the results and clears `loading` — so the
last completion to arrive wins, and a stale earlier response arriving
after a newer search has completed overwrites the newer results. -/
theorem c1_amended_no_sequence_gating (m : MachineState) (v : Json)
    (h : m.inflight ≠ 0) :
    stepF m (Ev.complete (Except.ok v))
      = some ⟨executeSearchSettle (Except.ok v) m.app, m.inflight - 1, m.geoPending⟩
    ∧ (executeSearchSettle (Except.ok v) m.app).results = v
    ∧ (executeSearchSettle (Except.ok v) m.app).loading = false := by
  refine ⟨?_, ?_, ?_⟩
  · have heq : stepF m (Ev.complete (Except.ok v))
        = if m.inflight = 0 then none
          else some { m with
                      app := executeSearchSettle (Except.ok v) m.app,
                      inflight := m.inflight - 1 } := rfl
    rw [heq, if_neg h]
  · cases hv : jsLenEqZero v with
    | error u => simp [executeSearchSettle, hv]
    | ok b => cases b <;> simp [executeSearchSettle, hv]
  · cases hv : jsLenEqZero v with
    | error u => simp [executeSearchSettle, hv]
    | ok b => cases b <;> simp [executeSearchSettle, hv]

/-- Witness for the amended C1 with one fetch in flight. -/
theorem c1_amended_witness :
    stepF ⟨initialApp, 1, 0⟩ (Ev.complete (Except.ok gpsArr))
      = some ⟨executeSearchSettle (Except.ok gpsArr) initialApp, 0, 0⟩
    ∧ (executeSearchSettle (Except.ok gpsArr) initialApp).results = gpsArr := by
  have h := c1_amended_no_sequence_gating ⟨initialApp, 1, 0⟩ gpsArr (by decide)
  exact ⟨h.1, h.2.1⟩

/-- A successful city search followed by starting a GPS search. -/
def c7Trace : List Ev :=
  [Ev.startSearch, Ev.complete (Except.ok c7Arr), Ev.geoRequest]

/-- Claim C7 counterexample: starting a GPS search from a Success state
does *not* clear the prior results before requesting a position — in the
final state of `c7Trace` the machine is waiting on the position
(`loading = true`, one geolocation request pending) while the prior
results are still stored. -/
theorem c7_counterexample :
    ((runEvents c7Trace).map (fun m => m.app.loading) = some true)
    ∧ ((runEvents c7Trace).map (fun m => m.geoPending) = some 1)
    ∧ ((runEvents c7Trace).map (fun m => m.app.results) = some c7Arr)
    ∧ c7Arr ≠ Json.arr [] := by
  exact ⟨rfl, rfl, rfl, fun h => absurd (congrArg jsLenGtZero h) (by decide)⟩

/-- Claim C7 (amended): starting a GPS search only sets the waiting flag
and requests a position with `{highAccuracy: true, timeout: 10 s,
cacheMaxAge: 0}` — prior results and error message survive until the
position fix triggers the fetch; on provider failure or timeout the
machine goes to Error with the location-permission message, the prior
results still in place, and the fetch is never invoked (the in-flight
count is unchanged). -/
theorem c7_amended_gps_flow (m m2 m3 : MachineState)
    (hreq : stepF m Ev.geoRequest = some m2)
    (hpend : m.geoPending ≠ 0)
    (hfail : stepF m Ev.geoFailure = some m3) :
    (geoOptions.enableHighAccuracy = true ∧ geoOptions.timeout = 10000
      ∧ geoOptions.maximumAge = 0)
    ∧ m2.app.results = m.app.results ∧ m2.app.error = m.app.error
    ∧ m2.app.loading = true ∧ m2.inflight = m.inflight
    ∧ m3.app.error = some permMsg ∧ m3.app.loading = false
    ∧ m3.app.results = m.app.results ∧ m3.inflight = m.inflight := by
  have h2 := Option.some.inj hreq
  simp only [stepF] at hfail
  rw [if_neg hpend] at hfail
  have h3 := Option.some.inj hfail
  subst h2
  subst h3
  exact ⟨⟨rfl, rfl, rfl⟩, rfl, rfl, rfl, rfl, rfl, rfl, rfl, rfl⟩

/-- Witness for the amended C7 with one geolocation request pending. -/
theorem c7_amended_witness :
    geoOptions.timeout = 10000
    ∧ (⟨{ initialApp with error := some permMsg, loading := false }, 0, 0⟩
        : MachineState).app.error = some permMsg := by
  have h := c7_amended_gps_flow ⟨initialApp, 0, 1⟩
    ⟨{ initialApp with loading := true, loadingStep := 0 }, 0, 2⟩
    ⟨{ initialApp with error := some permMsg, loading := false }, 0, 0⟩
    rfl (by decide) rfl
  exact ⟨h.1.2.1, h.2.2.2.2.2.1⟩

/-- A successful search, then a GPS attempt whose provider fails. -/
def c8Trace : List Ev :=
  [Ev.startSearch, Ev.complete (Except.ok c8Arr), Ev.geoRequest, Ev.geoFailure]

/-- Claim C8 counterexample: the reachable state at the end of `c8Trace`
is in the Error phase (it holds the geolocation-failure message) while
`results` is still non-empty — refuting "results is non-empty only when
the phase is Success"; and in the trace "search, one tick, new search
while still loading" the new search leaves `progressTick` at 1 — refuting
"progressTick is reset to 0 at the start of every new search". -/
theorem c8_counterexample :
    ((runEvents c8Trace).map (fun m => phaseOf m.app) = some Phase.Err)
    ∧ ((runEvents c8Trace).map (fun m => jsLenGtZero m.app.results) = some true)
    ∧ ((runEvents c8Trace).map (fun m => m.app.error) = some (some permMsg))
    ∧ ((runEvents [Ev.startSearch, Ev.tick, Ev.startSearch]).map
        (fun m => m.app.loadingStep) = some 1) := by
  exact ⟨rfl, rfl, rfl, rfl⟩

/-! ### The invariants that do hold of the orchestrator (amended C8) -/

/-- The settle step never touches `loadingStep`. -/
theorem settle_loadingStep (o : Except FetchErr Json) (s : AppState) :
    (executeSearchSettle o s).loadingStep = s.loadingStep := by
  cases o with
  | error e => rfl
  | ok v =>
    cases h : jsLenEqZero v with
    | error u => simp [executeSearchSettle, h]
    | ok b => cases b <;> simp [executeSearchSettle, h]

/-- The settle step leaves `error` alone or stores one of the two fetch
messages. -/
theorem settle_error (o : Except FetchErr Json) (s : AppState) :
    (executeSearchSettle o s).error = s.error
    ∨ (executeSearchSettle o s).error = some busyMsg
    ∨ (executeSearchSettle o s).error = some noResultsMsg := by
  cases o with
  | error e => exact Or.inr (Or.inl rfl)
  | ok v =>
    cases h : jsLenEqZero v with
    | error u => exact Or.inr (Or.inl (by simp [executeSearchSettle, h]))
    | ok b =>
      cases b with
      | true => exact Or.inr (Or.inr (by simp [executeSearchSettle, h]))
      | false => exact Or.inl (by simp [executeSearchSettle, h])

/-- The state invariant that the machine actually maintains. -/
def MachineInv (m : MachineState) : Prop :=
  m.app.loadingStep < 5
  ∧ (m.app.error = none ∨ m.app.error = some noResultsMsg
     ∨ m.app.error = some busyMsg ∨ m.app.error = some permMsg
     ∨ m.app.error = some unsupportedMsg)

theorem stepF_preserves_inv (m : MachineState) (e : Ev) (m2 : MachineState)
    (hm : MachineInv m) (hs : stepF m e = some m2) : MachineInv m2 := by
  cases e with
  | startSearch =>
    have h := Option.some.inj hs
    subst h
    refine ⟨?_, Or.inl rfl⟩
    show (if m.app.loading then m.app.loadingStep else 0) < 5
    split
    · exact hm.1
    · decide
  | selectCity c =>
    have h := Option.some.inj hs
    subst h
    exact hm
  | selectCuisine c =>
    have h := Option.some.inj hs
    subst h
    exact hm
  | editQuery q =>
    have h := Option.some.inj hs
    subst h
    exact hm
  | geoRequest =>
    have h := Option.some.inj hs
    subst h
    refine ⟨?_, hm.2⟩
    show (if m.app.loading then m.app.loadingStep else 0) < 5
    split
    · exact hm.1
    · decide
  | geoSuccess lat lng =>
    simp only [stepF] at hs
    by_cases h0 : m.geoPending = 0
    · rw [if_pos h0] at hs
      cases hs
    · rw [if_neg h0] at hs
      have h := Option.some.inj hs
      subst h
      refine ⟨?_, Or.inl rfl⟩
      show (if m.app.loading then m.app.loadingStep else 0) < 5
      split
      · exact hm.1
      · decide
  | geoFailure =>
    simp only [stepF] at hs
    by_cases h0 : m.geoPending = 0
    · rw [if_pos h0] at hs
      cases hs
    · rw [if_neg h0] at hs
      have h := Option.some.inj hs
      subst h
      exact ⟨hm.1, Or.inr (Or.inr (Or.inr (Or.inl rfl)))⟩
  | geoUnsupported =>
    have h := Option.some.inj hs
    subst h
    exact ⟨hm.1, Or.inr (Or.inr (Or.inr (Or.inr rfl)))⟩
  | complete o =>
    simp only [stepF] at hs
    by_cases h0 : m.inflight = 0
    · rw [if_pos h0] at hs
      cases hs
    · rw [if_neg h0] at hs
      have h := Option.some.inj hs
      subst h
      refine ⟨?_, ?_⟩
      · show (executeSearchSettle o m.app).loadingStep < 5
        rw [settle_loadingStep]
        exact hm.1
      · rcases settle_error o m.app with h | h | h
        · rw [h]; exact hm.2
        · rw [h]; exact Or.inr (Or.inr (Or.inl rfl))
        · rw [h]; exact Or.inr (Or.inl rfl)
  | tick =>
    simp only [stepF] at hs
    by_cases hl : m.app.loading = true
    · rw [if_pos hl] at hs
      have h := Option.some.inj hs
      subst h
      exact ⟨Nat.mod_lt _ (by decide), hm.2⟩
    · rw [if_neg hl] at hs
      cases hs

theorem run_preserves_inv (es : List Ev) :
    ∀ (m m2 : MachineState), run m es = some m2 → MachineInv m → MachineInv m2 := by
  induction es with
  | nil =>
    intro m m2 h hm
    have h2 := Option.some.inj h
    subst h2
    exact hm
  | cons e es ih =>
    intro m m2 h hm
    have h2 : (match stepF m e with
               | some m3 => run m3 es
               | none => none) = some m2 := h
    cases hs : stepF m e with
    | none => rw [hs] at h2; cases h2
    | some m3 =>
      rw [hs] at h2
      exact ih m3 m2 h2 (stepF_preserves_inv m e m3 hm hs)

/-- Claim C8 (amended): the interval tick fires only while the waiting
flag is set and advances `progressTick` modulo the 5 display stages;
starting a search clears `results` and `errorMessage` and resets the tick
to 0 when it starts from a non-waiting state (a search started while one
is already waiting keeps the running tick); and in every reachable state
the tick stays below 5 and the stored message is one of the five values
the code can write — but results and errorMessage are cleared only when a
fetch begins, not when GPS acquisition begins, so stale results and
messages survive into Locating and geolocation-failure states (see the
counterexample), and the empty-result advisory sits in `errorMessage`
outside the Error phase. -/
theorem c8_amended_invariants :
    (∀ m m2 : MachineState, stepF m Ev.tick = some m2 →
        m.app.loading = true ∧ m2.app.loadingStep = (m.app.loadingStep + 1) % 5)
    ∧ (∀ m m2 : MachineState, stepF m Ev.startSearch = some m2 →
        m2.app.results = Json.arr [] ∧ m2.app.error = none
        ∧ (m.app.loading = false → m2.app.loadingStep = 0))
    ∧ (∀ m : MachineState, Reachable m →
        m.app.loadingStep < 5
        ∧ (m.app.error = none ∨ m.app.error = some noResultsMsg
           ∨ m.app.error = some busyMsg ∨ m.app.error = some permMsg
           ∨ m.app.error = some unsupportedMsg)) := by
  refine ⟨?_, ?_, ?_⟩
  · intro m m2 h
    simp only [stepF] at h
    by_cases hl : m.app.loading = true
    · rw [if_pos hl] at h
      have h2 := Option.some.inj h
      subst h2
      exact ⟨hl, rfl⟩
    · rw [if_neg hl] at h
      cases h
  · intro m m2 h
    have h2 := Option.some.inj h
    subst h2
    refine ⟨rfl, rfl, fun hl => ?_⟩
    show (if m.app.loading then m.app.loadingStep else 0) = 0
    rw [hl]
    rfl
  · intro m hr
    rcases hr with ⟨es, hes⟩
    exact run_preserves_inv es initMachine m hes ⟨by decide, Or.inl rfl⟩

/-- Witness for the amended C8: the initial state is reachable and
satisfies the invariant; a concrete tick and a concrete search start
exercise the two step conjuncts. -/
theorem c8_amended_witness :
    initMachine.app.loadingStep < 5
    ∧ (executeSearchBegin initialApp).results = Json.arr []
    ∧ (executeSearchBegin initialApp).error = none
    ∧ ({ initialApp with loading := true } : AppState).loading = true := by
  have h3 := c8_amended_invariants.2.2 initMachine ⟨[], rfl⟩
  have h2 := c8_amended_invariants.2.1 ⟨initialApp, 0, 0⟩
    ⟨executeSearchBegin initialApp, 1, 0⟩ rfl
  have h1 := c8_amended_invariants.1
    ⟨{ initialApp with loading := true }, 0, 0⟩
    ⟨{ initialApp with loading := true, loadingStep := (initialApp.loadingStep + 1) % 5 }, 0, 0⟩
    rfl
  exact ⟨h3.1, h2.1, h2.2.1, h1.1⟩

end UAE
